import Mathlib

/-!
Verification of the pdf_classification repository (src/pdf_processor.py and
src/pdf_processor_v6.py) against its natural-language specification.

The two Python source files are shallowly embedded below.  External
capabilities (the filesystem `stat`, the PyMuPDF `fitz.open` inspection, and
the platform's `os.path.normcase`) are modelled as explicit oracle
parameters, since the spec treats them as opaque collaborators.  Machine
wall-clock timing fields (`processing_time`) and the float display rounding
of `file_size_mb` (`round(x, 2)`) are not modelled: no claim depends on
them, and floating point is outside the embedding.
-/

/-- Thresholds, identical in both source files:
`PAGE_COUNT_THRESHOLD = 100`. -/
def PAGE_COUNT_THRESHOLD : Nat := 100

/-- Size threshold `FILE_SIZE_THRESHOLD_BYTES = 10 * 1024 * 1024`, identical in both files. -/
def FILE_SIZE_THRESHOLD_BYTES : Nat := 10 * 1024 * 1024

/-- Batch size `BATCH_WRITE_SIZE = 1000` (pdf_processor_v6.py). -/
def BATCH_WRITE_SIZE : Nat := 1000

/-- The page-class expression `'L' if page_count > PAGE_COUNT_THRESHOLD else 'S'`
(pdf_processor.py line 68, pdf_processor_v6.py line 82). -/
def page_cat (page_count : Nat) : String :=
  if page_count > PAGE_COUNT_THRESHOLD then "L" else "S"

/-- The size-class expression `'L' if size > FILE_SIZE_THRESHOLD_BYTES else 'S'`
(pdf_processor.py line 69, pdf_processor_v6.py line 83). -/
def size_cat (size : Nat) : String :=
  if size > FILE_SIZE_THRESHOLD_BYTES then "L" else "S"

/-- Result of the opaque `fitz.open` inspection capability: the document's
page count (`len(doc)` / `doc.page_count`) and its `is_encrypted` flag. -/
structure FitzDoc where
  page_count : Nat
  is_encrypted : Bool
deriving DecidableEq

/-- Oracle for the external capabilities a worker touches for one path:
`Path.stat().st_size` (raising is `.error`), and `fitz.open` (raising on
open, or on any access inside the `with` block, is `.error`). -/
structure FileSystem where
  stat : String → Except String Nat
  fitzOpen : String → Except String FitzDoc

/-- Membership test on a list of strings, modelling Python's `in` on a set
(the set itself is modelled as a list, identified up to membership). -/
def memS (x : String) (l : List String) : Bool :=
  l.any (fun y => decide (x = y))

theorem memS_iff (x : String) (l : List String) : memS x l = true ↔ x ∈ l := by
  induction l with
  | nil => simp [memS]
  | cons y ys ih =>
    simp only [memS, List.any_cons, Bool.or_eq_true, decide_eq_true_eq,
      List.mem_cons] at ih ⊢
    exact or_congr Iff.rfl ih

/-! ### Python path-string model

Both workers store `str(Path(p))` as the record's `file_path`.  `PurePosixPath`
string conversion splits on `/`, drops empty and `.` components, and keeps a
root of `/` (or `//` for exactly two leading slashes). -/

/-- Split a character list on `/` separators. -/
def splitSlashAux : List Char → List Char → List String
  | cur, [] => [String.mk cur.reverse]
  | cur, c :: rest =>
    if c = '/' then String.mk cur.reverse :: splitSlashAux [] rest
    else splitSlashAux (c :: cur) rest

/-- Split a string on `/`, as Python's `s.split('/')`. -/
def splitSlash (s : String) : List String :=
  splitSlashAux [] s.data

/-- Number of leading `/` characters. -/
def leadingSlashCount : List Char → Nat
  | [] => 0
  | c :: rest => if c = '/' then leadingSlashCount rest + 1 else 0

/-- Join path components with single `/` separators. -/
def joinSlash : List String → String
  | [] => ""
  | [p] => p
  | p :: ps => p ++ "/" ++ joinSlash ps

/-- Models `str(pathlib.PurePosixPath(s))`: components are the non-empty,
non-`.` fields between slashes; the root is `//` for exactly two leading
slashes, `/` for any other positive number; the empty path prints as `.`. -/
def posixPathStr (s : String) : String :=
  let parts := (splitSlash s).filter (fun c => c ≠ "" && c ≠ ".")
  let n := leadingSlashCount s.data
  let root := if n = 0 then "" else if n = 2 then "//" else "/"
  if root = "" && parts.isEmpty then "." else root ++ joinSlash parts

/-- Python `str.strip()` whitespace predicate (ASCII whitespace; the full
Unicode set is irrelevant to the inputs considered here). -/
def isPySpace (c : Char) : Bool :=
  c = ' ' || c = '\t' || c = '\n' || c = '\r' || c = '\x0b' || c = '\x0c'

/-- Python `line.strip()`. -/
def pyStrip (s : String) : String :=
  String.mk (((s.data.dropWhile isPySpace).reverse.dropWhile isPySpace).reverse)

/-- Python `line.rstrip("\n")` (pdf_processor.py line 95). -/
def pyRstripNl (s : String) : String :=
  String.mk ((s.data.reverse.dropWhile (fun c => c = '\n')).reverse)

namespace PdfProcessor

/-! Embedding of `src/pdf_processor.py` (v1). -/

/-- The worker's result dict (pdf_processor.py lines 41-49).  The
`processing_time` wall-clock field is omitted (not embeddable; no claim
depends on it). -/
structure Info where
  file_path : String
  file_size_bytes : Nat
  can_open : Bool
  page_count : Nat
  error_message : String
  category : String
deriving DecidableEq

/-- Worker `process_single_pdf` of pdf_processor.py (lines 36-80): stat the file,
short-circuit below 100 bytes, open with fitz, short-circuit on encryption,
otherwise record the page count and the category; any raised exception is
caught and stored in `error_message`. -/
def process_single_pdf (fs : FileSystem) (pdf_path : String) : Info :=
  let info0 : Info :=
    { file_path := posixPathStr pdf_path, file_size_bytes := 0,
      can_open := false, page_count := 0, error_message := "", category := "N/A" }
  match fs.stat pdf_path with
  | Except.error e => { info0 with error_message := e }
  | Except.ok size =>
    let info1 := { info0 with file_size_bytes := size }
    if size < 100 then { info1 with error_message := "文件过小 (too small)" }
    else
      match fs.fitzOpen pdf_path with
      | Except.error e => { info1 with error_message := e }
      | Except.ok doc =>
        if doc.is_encrypted then { info1 with error_message := "加密PDF" }
        else
          { info1 with
            page_count := doc.page_count,
            can_open := true,
            category := page_cat doc.page_count ++ "-" ++ size_cat size }

/-- A row of the v1 output CSV: the header row, or a record row. -/
inductive Row where
  | header : Row
  | entry : Info → Row
deriving DecidableEq

/-- Entry point `main` of pdf_processor.py (lines 83-144) as a store transformer plus
exit status.  If the root path does not exist the function returns early
(lines 85-87) leaving the store untouched; Python then exits with status 0.
Otherwise the store is opened with mode `"w"` (line 98), truncating any
previous contents, the header is written, and the rows are appended. -/
def main (rootExists : Bool) (fs : FileSystem) (lines : List String)
    (prev : Option (List Row)) : Nat × Option (List Row) :=
  if rootExists = false then (0, prev)
  else
    (0, some (Row.header ::
      lines.map (fun l => Row.entry (process_single_pdf fs (pyRstripNl l)))))

end PdfProcessor

namespace PdfProcessorV6

/-! Embedding of `src/pdf_processor_v6.py`. -/

/-- The worker's result dict (pdf_processor_v6.py lines 67-72).
`file_size_mb` is modelled as the exact rational `size / (1024*1024)`;
the float `round(x, 2)` display rounding is not modelled (floating point
is outside the embedding and no claim depends on this field's value). -/
structure Info where
  file_path : String
  page_count : Nat
  file_size_mb : Rat
  category : String
deriving DecidableEq

/-- Worker `process_single_pdf` of pdf_processor_v6.py (lines 64-89): stat, then
open with fitz and read the page count and category.  There is no minimum
size check and no encryption check; every raised exception is swallowed by
`except Exception: pass`, leaving the fields set so far. -/
def process_single_pdf (fs : FileSystem) (pdf_path_str : String) : Info :=
  let info0 : Info :=
    { file_path := posixPathStr pdf_path_str, page_count := 0,
      file_size_mb := 0, category := "N/A" }
  match fs.stat pdf_path_str with
  | Except.error _ => info0
  | Except.ok file_size_bytes =>
    let info1 := { info0 with
      file_size_mb := (file_size_bytes : Rat) / (1024 * 1024) }
    match fs.fitzOpen pdf_path_str with
    | Except.error _ => info1
    | Except.ok doc =>
      { info1 with
        page_count := doc.page_count,
        category := page_cat doc.page_count ++ "-" ++ size_cat file_size_bytes }

/-- Recursion of `find_pdf_files` (lines 39-55) over the stream of lines
produced by the `find` subprocess, threading the `seen` dedup set:
strip each line, skip empty ones, skip a path whose `os.path.normcase`
image (the oracle `nc`) is already in `seen`, otherwise yield it and add
its image to `seen`.  (The `rglob` fallback of lines 56-62 applies the
same seen-set discipline to a different traversal stream.) -/
def findAux (nc : String → String) (seen : List String) :
    List String → List String
  | [] => []
  | line :: rest =>
    let path := pyStrip line
    if path = "" then findAux nc seen rest
    else if memS (nc path) seen then findAux nc seen rest
    else path :: findAux nc (nc path :: seen) rest

/-- Generator `find_pdf_files` (lines 39-62): the deduplicated lazy path stream,
started with an empty `seen` set. -/
def find_pdf_files (nc : String → String) (lines : List String) : List String :=
  findAux nc [] lines

/-- Loop of `load_processed_csv` (lines 96-105): each item is the outcome of
reading one CSV data row — `.error` for an exception raised while reading
(malformed row, decode error), `.ok none` for a row without a `file_path`
column, `.ok (some p)` for a row whose `file_path` cell is `p`.  On the
first exception the `except` clause logs a warning and the set accumulated
so far is returned.  Rows whose path is falsy (`if p:`) are skipped. -/
def loadGo (nc : String → String) (acc : List String) :
    List (Except Unit (Option String)) → List String
  | [] => acc
  | Except.error _ :: _ => acc
  | Except.ok none :: rest => loadGo nc acc rest
  | Except.ok (some p) :: rest =>
    loadGo nc (if p = "" then acc else nc p :: acc) rest

/-- Loader `load_processed_csv` (lines 91-106): `none` input means the store file
does not exist (`os.path.exists` is false) and the empty set is returned;
a failure of `open` itself is a leading `.error` item. -/
def load_processed_csv (nc : String → String) :
    Option (List (Except Unit (Option String))) → List String
  | none => []
  | some rows => loadGo nc [] rows

/-- A row of the v6 output CSV: the header row
`['file_path', 'page_count', 'file_size_mb', 'category']`, or a record row. -/
inductive Row where
  | header : Row
  | entry : Info → Row
deriving DecidableEq

/-- Reading one stored row through `csv.DictReader` (with the standard
header as fieldnames): a record row yields its `file_path` cell; a stray
header-shaped row read as data yields the literal cell `"file_path"`. -/
def csvReadRow : Row → Except Unit (Option String)
  | Row.header => Except.ok (some ("file_path"))
  | Row.entry r => Except.ok (some (r.file_path))

/-- Reading a stored file through `csv.DictReader`: the first physical row
is consumed as the fieldnames row, the remaining rows are yielded as data. -/
def csvRead (rows : List Row) : List (Except Unit (Option String)) :=
  (rows.drop 1).map csvReadRow

/-- One step of the result-collection loop's batching (lines 156, 161-163),
for batch size `n`: append the record to `batch_rows`; once the batch
reaches `n` records, enqueue a copy and clear it.  The state is
(batches already enqueued, current partial batch). -/
def batchStep (n : Nat) (st : List (List Info) × List Info) (r : Info) :
    List (List Info) × List Info :=
  let b := st.2 ++ [r]
  if n ≤ b.length then (st.1 ++ [b], []) else (st.1, b)

/-- The whole sequence of items placed on `csv_queue` during a run that
collects `records`, for batch size `n` (lines 154-174): the full batches,
then the final partial batch if non-empty, then the `None` sentinel. -/
def enqueueAllN (n : Nat) (records : List Info) : List (Option (List Info)) :=
  let st := records.foldl (batchStep n) ([], [])
  (st.1 ++ (if st.2 = [] then [] else [st.2])).map some ++ [none]

/-- Specialization of `enqueueAllN` at the source batch size of 1000. -/
def enqueueAll (records : List Info) : List (Option (List Info)) :=
  enqueueAllN BATCH_WRITE_SIZE records

/-- The writer loop of `csv_writer_thread` (lines 119-132): pop queue items,
stop at the `None` sentinel, write every row of every batch.  (The per-row
`if row is None: continue` guard never fires: only records are enqueued.) -/
def writerLoop : List (Option (List Info)) → List Info
  | [] => []
  | none :: _ => []
  | some rows :: rest => rows ++ writerLoop rest

/-- Writer thread `csv_writer_thread` (lines 112-132) as a file-contents function: the
store is opened in mode `'a'` (previous contents preserved), the header is
written only when `os.path.exists` was false, and then every row of every
batch consumed before the sentinel is appended. -/
def csv_writer_thread (store : Option (List Row))
    (queue : List (Option (List Info))) : List Row :=
  (store.getD []) ++ (if store.isSome then [] else [Row.header]) ++
    (writerLoop queue).map Row.entry

/-- The resume-filtered generator (line 148):
`(p for p in find_pdf_files(root_path) if os.path.normcase(p) not in processed)`. -/
def pdf_gen (nc : String → String) (lines : List String)
    (processed : List String) : List String :=
  (find_pdf_files nc lines).filter (fun p => !(memS (nc p) processed))

/-- The `futures` mapping of line 151:
`{executor.submit(process_single_pdf, p): p for p in pdf_gen}`.  The dict
comprehension drains the whole generator before the `as_completed` loop
runs, so this structure simultaneously holds one entry (a future and the
path string) for every discovered, non-resumed path. -/
def futuresDict (nc : String → String) (lines : List String)
    (processed : List String) : List String :=
  pdf_gen nc lines processed

/-- Orchestrator `process_pdfs` (lines 109-185) as a store transformer: load the resume
set (when `resume` is true), discover and filter paths, classify each one,
and run the writer thread over the enqueued batches.  The result is the
store contents when the run ends (`some` because the writer's `open('a')`
creates the file). -/
def process_pdfs (nc : String → String) (fs : FileSystem)
    (lines : List String) (resume : Bool) (store : Option (List Row)) :
    Option (List Row) :=
  let processed := if resume then load_processed_csv nc (store.map csvRead)
                   else []
  let gen := pdf_gen nc lines processed
  some (csv_writer_thread store (enqueueAll (gen.map (process_single_pdf fs))))

/-- Operation `setdefault` on the stats dict (line 158), modelled as an
insertion-ordered association list: if the key is absent, append it with
value 0. -/
def setdefault (d : List (String × Nat)) (k : String) : List (String × Nat) :=
  if memS k (d.map Prod.fst) then d else d ++ [(k, 0)]

/-- Increment `stats["category_counts"][k] += 1` (line 159). -/
def bump (d : List (String × Nat)) (k : String) : List (String × Nat) :=
  d.map (fun kv => if kv.fst = k then (kv.fst, kv.snd + 1) else kv)

/-- The mutable counters of `stats` (lines 137-141). -/
structure Stats where
  processed : Nat
  category_counts : List (String × Nat)
deriving DecidableEq

/-- Handling one completed future in the collection loop (lines 154-159):
increment `processed`, create the category's counter on demand, and
increment it. -/
def statsStep (st : Stats) (res : Info) : Stats :=
  { processed := st.processed + 1,
    category_counts := bump (setdefault st.category_counts res.category)
      res.category }

/-- The initial `stats` value (lines 137-141). -/
def initStats : Stats :=
  { processed := 0,
    category_counts :=
      [("S-S", 0), ("S-L", 0), ("L-S", 0), ("L-L", 0), ("N/A", 0)] }

/-- Entry point `main` of pdf_processor_v6.py (lines 188-197): parse arguments and call
`process_pdfs`; there is no check that the root path exists, and the
process exits with status 0 when `process_pdfs` returns.  A missing root
makes the `find` subprocess print only to stderr, so `lines` is empty. -/
def main (nc : String → String) (fs : FileSystem) (lines : List String)
    (store : Option (List Row)) : Nat × Option (List Row) :=
  (0, process_pdfs nc fs lines true store)

end PdfProcessorV6

/-! ### Simple classification facts (claims C1, C4, C5) -/

theorem size_cat_eq_L_iff (n : Nat) :
    size_cat n = "L" ↔ n > 10 * 1024 * 1024 := by
  unfold size_cat FILE_SIZE_THRESHOLD_BYTES
  split
  · simp_all
  · simp_all

theorem page_cat_eq_L_iff (n : Nat) : page_cat n = "L" ↔ n > 100 := by
  unfold page_cat PAGE_COUNT_THRESHOLD
  split
  · simp_all
  · simp_all

/-- C1: with an observed size `s` and an opened document of page count `p`,
the v6 worker's category is the `page-size` cross of the two classes; the
size-class is `L` exactly when `s > 10*1024*1024` (so exactly the threshold
is `S`), the page-class is `L` exactly when `p > 100` (so exactly 100 pages
is `S`); and on its success path (size at least 100 bytes, not encrypted)
the v1 worker computes the identical cross. -/
theorem c1_strict_threshold_cross (fs : FileSystem) (path : String) (s : Nat)
    (doc : FitzDoc) (hs : fs.stat path = Except.ok s)
    (ho : fs.fitzOpen path = Except.ok doc) :
    (PdfProcessorV6.process_single_pdf fs path).category
        = page_cat doc.page_count ++ "-" ++ size_cat s
    ∧ (∀ n, size_cat n = "L" ↔ n > 10 * 1024 * 1024)
    ∧ (∀ n, size_cat n = "S" ↔ ¬n > 10 * 1024 * 1024)
    ∧ (∀ n, page_cat n = "L" ↔ n > 100)
    ∧ (∀ n, page_cat n = "S" ↔ ¬n > 100)
    ∧ size_cat (10 * 1024 * 1024) = "S"
    ∧ page_cat 100 = "S"
    ∧ (100 ≤ s → doc.is_encrypted = false →
        (PdfProcessor.process_single_pdf fs path).category
          = page_cat doc.page_count ++ "-" ++ size_cat s) := by
  refine ⟨?_, ?_, ?_, ?_, ?_, ?_, ?_, ?_⟩
  · simp [PdfProcessorV6.process_single_pdf, hs, ho]
  · exact size_cat_eq_L_iff
  · intro n
    unfold size_cat FILE_SIZE_THRESHOLD_BYTES
    split
    · simp_all
    · simp_all
  · exact page_cat_eq_L_iff
  · intro n
    unfold page_cat PAGE_COUNT_THRESHOLD
    split
    · simp_all
    · simp_all
  · decide
  · decide
  · intro hge henc
    simp [PdfProcessor.process_single_pdf, hs, ho, Nat.not_lt.mpr hge, henc]

/-- Witness for C1 at a concrete boundary input: size exactly the threshold
and page count exactly 100 classify as `S-S`. -/
theorem c1_strict_threshold_cross_witness :
    (PdfProcessorV6.process_single_pdf
        ⟨fun _ => Except.ok (10 * 1024 * 1024),
         fun _ => Except.ok ⟨100, false⟩⟩ ("/r/a.pdf")).category
        = page_cat (FitzDoc.mk 100 false).page_count ++ "-"
          ++ size_cat (10 * 1024 * 1024)
    ∧ (∀ n, size_cat n = "L" ↔ n > 10 * 1024 * 1024)
    ∧ (∀ n, size_cat n = "S" ↔ ¬n > 10 * 1024 * 1024)
    ∧ (∀ n, page_cat n = "L" ↔ n > 100)
    ∧ (∀ n, page_cat n = "S" ↔ ¬n > 100)
    ∧ size_cat (10 * 1024 * 1024) = "S"
    ∧ page_cat 100 = "S"
    ∧ (100 ≤ 10 * 1024 * 1024 → (FitzDoc.mk 100 false).is_encrypted = false →
        (PdfProcessor.process_single_pdf
            ⟨fun _ => Except.ok (10 * 1024 * 1024),
             fun _ => Except.ok ⟨100, false⟩⟩ ("/r/a.pdf")).category
          = page_cat (FitzDoc.mk 100 false).page_count ++ "-"
            ++ size_cat (10 * 1024 * 1024)) :=
  c1_strict_threshold_cross _ _ _ _ rfl rfl

/-- C4 counterexample: in pdf_processor_v6.py there is no minimum-size
check at all.  For a 50-byte file that the external capability can open
(1 page, unencrypted), the v6 worker returns category `S-S` with page
count 1 — not `UNKNOWN` with page count 0 — and the v6 record has no
error-message field that could be populated. -/
theorem c4_counterexample :
    (PdfProcessorV6.process_single_pdf
        ⟨fun _ => Except.ok 50, fun _ => Except.ok ⟨1, false⟩⟩
        ("/r/tiny.pdf")).category = "S-S"
    ∧ (PdfProcessorV6.process_single_pdf
        ⟨fun _ => Except.ok 50, fun _ => Except.ok ⟨1, false⟩⟩
        ("/r/tiny.pdf")).category ≠ "N/A"
    ∧ (PdfProcessorV6.process_single_pdf
        ⟨fun _ => Except.ok 50, fun _ => Except.ok ⟨1, false⟩⟩
        ("/r/tiny.pdf")).page_count = 1 := by
  refine ⟨rfl, ?_, rfl⟩
  decide

/-- C4 as amended: only the v1 worker (pdf_processor.py) short-circuits on
files smaller than 100 bytes, returning page count 0, category `N/A`, the
too-small error message, and the observed size — without consulting the
inspection capability (the result is unchanged under any change of the
`fitz.open` oracle). -/
theorem c4_amended_small_file_v1 (fs fs' : FileSystem) (path : String)
    (s : Nat) (h : fs.stat path = Except.ok s)
    (h' : fs'.stat path = Except.ok s) (hlt : s < 100) :
    (PdfProcessor.process_single_pdf fs path).error_message
        = "文件过小 (too small)"
    ∧ (PdfProcessor.process_single_pdf fs path).category = "N/A"
    ∧ (PdfProcessor.process_single_pdf fs path).page_count = 0
    ∧ (PdfProcessor.process_single_pdf fs path).file_size_bytes = s
    ∧ PdfProcessor.process_single_pdf fs path
        = PdfProcessor.process_single_pdf fs' path := by
  refine ⟨?_, ?_, ?_, ?_, ?_⟩ <;>
    simp [PdfProcessor.process_single_pdf, h, h', hlt]

/-- Witness for the amended C4: a concrete 50-byte file short-circuits
identically under two oracles that disagree on inspection. -/
theorem c4_amended_small_file_v1_witness :
    (PdfProcessor.process_single_pdf
        ⟨fun _ => Except.ok 50, fun _ => Except.ok ⟨1, false⟩⟩
        ("/r/tiny.pdf")).error_message = "文件过小 (too small)"
    ∧ (PdfProcessor.process_single_pdf
        ⟨fun _ => Except.ok 50, fun _ => Except.ok ⟨1, false⟩⟩
        ("/r/tiny.pdf")).category = "N/A"
    ∧ (PdfProcessor.process_single_pdf
        ⟨fun _ => Except.ok 50, fun _ => Except.ok ⟨1, false⟩⟩
        ("/r/tiny.pdf")).page_count = 0
    ∧ (PdfProcessor.process_single_pdf
        ⟨fun _ => Except.ok 50, fun _ => Except.ok ⟨1, false⟩⟩
        ("/r/tiny.pdf")).file_size_bytes = 50
    ∧ PdfProcessor.process_single_pdf
        ⟨fun _ => Except.ok 50, fun _ => Except.ok ⟨1, false⟩⟩ ("/r/tiny.pdf")
        = PdfProcessor.process_single_pdf
            ⟨fun _ => Except.ok 50, fun _ => Except.error ("corrupt")⟩
            ("/r/tiny.pdf") :=
  c4_amended_small_file_v1 _ _ _ 50 rfl rfl (by decide)

/-- C5 counterexample: in pdf_processor_v6.py there is no encryption check.
For an encrypted 5 MiB document whose inspection reports 150 pages, the v6
worker returns category `L-S` with page count 150 — not `UNKNOWN` — and
the v6 record has no error-message field. -/
theorem c5_counterexample :
    (PdfProcessorV6.process_single_pdf
        ⟨fun _ => Except.ok (5 * 1024 * 1024), fun _ => Except.ok ⟨150, true⟩⟩
        ("/r/enc.pdf")).category = "L-S"
    ∧ (PdfProcessorV6.process_single_pdf
        ⟨fun _ => Except.ok (5 * 1024 * 1024), fun _ => Except.ok ⟨150, true⟩⟩
        ("/r/enc.pdf")).category ≠ "N/A"
    ∧ (PdfProcessorV6.process_single_pdf
        ⟨fun _ => Except.ok (5 * 1024 * 1024), fun _ => Except.ok ⟨150, true⟩⟩
        ("/r/enc.pdf")).page_count = 150 := by
  refine ⟨rfl, ?_, rfl⟩
  decide

/-- C5 as amended: only the v1 worker (pdf_processor.py) short-circuits on
an encrypted document, for any size at least 100 bytes and any reported
page count, with the encryption error message, category `N/A`, and page
count 0. -/
theorem c5_amended_encrypted_v1 (fs : FileSystem) (path : String) (s : Nat)
    (doc : FitzDoc) (hs : fs.stat path = Except.ok s) (hge : 100 ≤ s)
    (ho : fs.fitzOpen path = Except.ok doc)
    (henc : doc.is_encrypted = true) :
    (PdfProcessor.process_single_pdf fs path).error_message = "加密PDF"
    ∧ (PdfProcessor.process_single_pdf fs path).category = "N/A"
    ∧ (PdfProcessor.process_single_pdf fs path).page_count = 0 := by
  refine ⟨?_, ?_, ?_⟩ <;>
    simp [PdfProcessor.process_single_pdf, hs, ho, Nat.not_lt.mpr hge, henc]

/-- Witness for the amended C5 at a concrete encrypted document. -/
theorem c5_amended_encrypted_v1_witness :
    (PdfProcessor.process_single_pdf
        ⟨fun _ => Except.ok (5 * 1024 * 1024), fun _ => Except.ok ⟨150, true⟩⟩
        ("/r/enc.pdf")).error_message = "加密PDF"
    ∧ (PdfProcessor.process_single_pdf
        ⟨fun _ => Except.ok (5 * 1024 * 1024), fun _ => Except.ok ⟨150, true⟩⟩
        ("/r/enc.pdf")).category = "N/A"
    ∧ (PdfProcessor.process_single_pdf
        ⟨fun _ => Except.ok (5 * 1024 * 1024), fun _ => Except.ok ⟨150, true⟩⟩
        ("/r/enc.pdf")).page_count = 0 :=
  c5_amended_encrypted_v1 _ _ (5 * 1024 * 1024) ⟨150, true⟩ rfl (by decide)
    rfl rfl

/-! ### Stats-counter invariant (claim C10) -/

namespace PdfProcessorV6

theorem bump_map_fst (d : List (String × Nat)) (k : String) :
    (bump d k).map Prod.fst = d.map Prod.fst := by
  induction d with
  | nil => rfl
  | cons kv rest ih =>
    simp only [bump, List.map_cons] at ih ⊢
    by_cases h : kv.fst = k
    · simp [h, ih]
    · simp [h, ih]

theorem bump_of_not_mem (d : List (String × Nat)) (k : String)
    (h : k ∉ d.map Prod.fst) : bump d k = d := by
  induction d with
  | nil => rfl
  | cons kv rest ih =>
    simp only [List.map_cons, List.mem_cons, not_or] at h
    simp only [bump, List.map_cons]
    rw [if_neg (fun hk => h.1 hk.symm)]
    have := ih h.2
    simp only [bump] at this
    rw [this]

theorem bump_sum (d : List (String × Nat)) (k : String)
    (hnd : (d.map Prod.fst).Nodup) (hk : k ∈ d.map Prod.fst) :
    ((bump d k).map Prod.snd).sum = (d.map Prod.snd).sum + 1 := by
  induction d with
  | nil => simp at hk
  | cons kv rest ih =>
    simp only [List.map_cons, List.nodup_cons] at hnd
    simp only [List.map_cons, List.mem_cons] at hk
    by_cases h : kv.fst = k
    · have hrest : bump rest k = rest :=
        bump_of_not_mem rest k (by rw [← h]; exact hnd.1)
      simp only [bump, List.map_cons, if_pos h]
      simp only [bump] at hrest
      rw [hrest]
      simp [Nat.add_assoc, Nat.add_comm 1]
    · rcases hk with hk | hk
      · exact absurd hk.symm h
      · simp only [bump, List.map_cons, if_neg h]
        have h2 := ih hnd.2 hk
        simp only [bump] at h2
        rw [List.map_map] at h2
        simp only [List.map_cons, List.sum_cons, List.map_map, h2]
        omega

theorem setdefault_map_fst_nodup (d : List (String × Nat)) (k : String)
    (hnd : (d.map Prod.fst).Nodup) :
    ((setdefault d k).map Prod.fst).Nodup := by
  unfold setdefault
  by_cases h : memS k (d.map Prod.fst) = true
  · rw [if_pos h]; exact hnd
  · rw [if_neg h]
    have hk : k ∉ d.map Prod.fst := fun hm => h ((memS_iff _ _).mpr hm)
    simp only [List.map_append, List.map_cons, List.map_nil]
    rw [List.nodup_append]
    refine ⟨hnd, List.nodup_singleton k, ?_⟩
    intro a ha hb
    simp only [List.mem_singleton] at hb
    exact hk (hb ▸ ha)

theorem setdefault_sum (d : List (String × Nat)) (k : String) :
    ((setdefault d k).map Prod.snd).sum = (d.map Prod.snd).sum := by
  unfold setdefault
  by_cases h : memS k (d.map Prod.fst) = true
  · rw [if_pos h]
  · rw [if_neg h]; simp

theorem mem_setdefault (d : List (String × Nat)) (k : String) :
    k ∈ (setdefault d k).map Prod.fst := by
  unfold setdefault
  by_cases h : memS k (d.map Prod.fst) = true
  · rw [if_pos h]; exact (memS_iff _ _).mp h
  · rw [if_neg h]; simp

theorem statsStep_invariant (st : Stats) (res : Info)
    (hnd : (st.category_counts.map Prod.fst).Nodup)
    (hsum : (st.category_counts.map Prod.snd).sum = st.processed) :
    ((statsStep st res).category_counts.map Prod.fst).Nodup
    ∧ ((statsStep st res).category_counts.map Prod.snd).sum
        = (statsStep st res).processed := by
  unfold statsStep
  constructor
  · simp only [bump_map_fst]
    exact setdefault_map_fst_nodup _ _ hnd
  · rw [bump_sum _ _ (setdefault_map_fst_nodup _ _ hnd) (mem_setdefault _ _),
      setdefault_sum, hsum]

theorem foldl_statsStep_invariant (rs : List Info) (st : Stats)
    (hnd : (st.category_counts.map Prod.fst).Nodup)
    (hsum : (st.category_counts.map Prod.snd).sum = st.processed) :
    (((rs.foldl statsStep st).category_counts.map Prod.fst).Nodup)
    ∧ ((rs.foldl statsStep st).category_counts.map Prod.snd).sum
        = (rs.foldl statsStep st).processed := by
  induction rs generalizing st with
  | nil => exact ⟨hnd, hsum⟩
  | cons r rest ih =>
    have h := statsStep_invariant st r hnd hsum
    exact ih (statsStep st r) h.1 h.2

end PdfProcessorV6

/-- C10: after any number `k` of completed futures have been handled in the
v6 result-collection loop, the sum of all counters in
`stats["category_counts"]` equals `stats["processed"]`: each step
increments `processed` once and exactly one category counter, creating the
counter on demand when the category is not among the five preset keys. -/
theorem c10_category_counts_sum (results : List PdfProcessorV6.Info)
    (k : Nat) :
    ((((results.take k).foldl PdfProcessorV6.statsStep
          PdfProcessorV6.initStats).category_counts.map Prod.snd).sum)
      = ((results.take k).foldl PdfProcessorV6.statsStep
          PdfProcessorV6.initStats).processed :=
  (PdfProcessorV6.foldl_statsStep_invariant (results.take k)
    PdfProcessorV6.initStats (by decide) (by decide)).2

/-! ### Writer batching (claims C3, C6, C2) -/

namespace PdfProcessorV6

theorem writerLoop_map_some (batches : List (List Info)) :
    writerLoop (batches.map some ++ [none]) = batches.flatten := by
  induction batches with
  | nil => rfl
  | cons b rest ih => simp [writerLoop, ih]

theorem batch_foldl_join (n : Nat) (rs : List Info)
    (qs : List (List Info)) (b : List Info) :
    ((rs.foldl (batchStep n) (qs, b)).1).flatten
        ++ (rs.foldl (batchStep n) (qs, b)).2
      = qs.flatten ++ b ++ rs := by
  induction rs generalizing qs b with
  | nil => simp
  | cons r rest ih =>
    simp only [List.foldl_cons]
    by_cases h : n ≤ (b ++ [r]).length
    · have hstep : batchStep n (qs, b) r = (qs ++ [b ++ [r]], []) := by
        unfold batchStep
        rw [if_pos h]
      rw [hstep, ih]
      simp
    · have hstep : batchStep n (qs, b) r = (qs, b ++ [r]) := by
        unfold batchStep
        rw [if_neg h]
      rw [hstep, ih]
      simp

theorem writerLoop_enqueueAllN (n : Nat) (records : List Info) :
    writerLoop (enqueueAllN n records) = records := by
  unfold enqueueAllN
  rw [writerLoop_map_some]
  have h := batch_foldl_join n records [] []
  simp only [List.flatten_nil, List.nil_append] at h
  by_cases hb : (records.foldl (batchStep n) ([], [])).2 = []
  · rw [if_pos hb]
    rw [hb, List.append_nil] at h
    simpa using h
  · rw [if_neg hb]
    simpa using h

theorem writerLoop_enqueueAll (records : List Info) :
    writerLoop (enqueueAll records) = records :=
  writerLoop_enqueueAllN BATCH_WRITE_SIZE records

theorem csv_writer_thread_enqueueAll (store : Option (List Row))
    (records : List Info) :
    csv_writer_thread store (enqueueAll records)
      = store.getD [] ++ (if store.isSome then [] else [Row.header])
        ++ records.map Row.entry := by
  unfold csv_writer_thread
  rw [writerLoop_enqueueAll]

end PdfProcessorV6

/-- C3: every path submitted to the v6 worker pool yields exactly one
record (the worker is a total function: oracle failures still produce a
record), and every produced record reaches the output store before the run
ends: the batching of the collection loop, the final partial-batch flush,
and the sentinel-terminated writer loop together write exactly the
collected records, in order, after the preserved prior store contents. -/
theorem c3_no_record_dropped (fs : FileSystem) (paths : List String)
    (store : Option (List PdfProcessorV6.Row)) :
    (paths.map (PdfProcessorV6.process_single_pdf fs)).length = paths.length
    ∧ PdfProcessorV6.writerLoop
        (PdfProcessorV6.enqueueAll
          (paths.map (PdfProcessorV6.process_single_pdf fs)))
        = paths.map (PdfProcessorV6.process_single_pdf fs)
    ∧ PdfProcessorV6.csv_writer_thread store
        (PdfProcessorV6.enqueueAll
          (paths.map (PdfProcessorV6.process_single_pdf fs)))
        = store.getD []
          ++ (if store.isSome then [] else [PdfProcessorV6.Row.header])
          ++ (paths.map (PdfProcessorV6.process_single_pdf fs)).map
              PdfProcessorV6.Row.entry :=
  ⟨List.length_map _ _,
   PdfProcessorV6.writerLoop_enqueueAll _,
   PdfProcessorV6.csv_writer_thread_enqueueAll store _⟩

/-! ### Header discipline of the sink writer (claim C6) -/

namespace PdfProcessorV6

/-- Number of header rows present in a store. -/
def headerCount (rows : List Row) : Nat :=
  rows.countP (fun r => match r with | Row.header => true | Row.entry _ => false)

/-- The store contents after a sequence of v6 runs, starting from a
non-existent store; each run hands its collected records to
`csv_writer_thread` through the batch queue. -/
def lifetimeStores (runs : List (List Info)) : Option (List Row) :=
  runs.foldl
    (fun st recs => some (csv_writer_thread st (enqueueAll recs))) none

theorem headerCount_append (a b : List Row) :
    headerCount (a ++ b) = headerCount a + headerCount b := by
  unfold headerCount
  exact List.countP_append _ _ _

theorem headerCount_entries (recs : List Info) :
    headerCount (recs.map Row.entry) = 0 := by
  induction recs with
  | nil => rfl
  | cons r rest ih =>
    simp only [List.map_cons]
    unfold headerCount at ih ⊢
    rw [List.countP_cons]
    simp [ih]

theorem headerCount_csv_writer (store : Option (List Row))
    (recs : List Info) :
    headerCount (csv_writer_thread store (enqueueAll recs))
      = headerCount (store.getD [])
        + (if store.isSome then 0 else 1) := by
  rw [csv_writer_thread_enqueueAll]
  rw [headerCount_append, headerCount_append, headerCount_entries]
  cases store with
  | none => rfl
  | some rows => rfl

theorem lifetime_foldl_some (runs : List (List Info)) (rows : List Row)
    (h : headerCount rows = 1) :
    headerCount
      ((runs.foldl
        (fun st recs => some (csv_writer_thread st (enqueueAll recs)))
        (some rows)).getD []) = 1 := by
  induction runs generalizing rows with
  | nil => simpa using h
  | cons recs rest ih =>
    simp only [List.foldl_cons]
    refine ih _ ?_
    rw [headerCount_csv_writer]
    simpa using h

end PdfProcessorV6

/-- C6 counterexample: pdf_processor.py's `main` opens the output store
with mode `"w"` on every run, truncating it and rewriting the header even
when the store already existed; a pre-existing record is lost and is
absent from the resulting store. -/
theorem c6_counterexample :
    (PdfProcessor.main true
        ⟨fun _ => Except.ok 500, fun _ => Except.ok ⟨5, false⟩⟩
        (["/r/b.pdf\n"])
        (some [PdfProcessor.Row.header,
               PdfProcessor.Row.entry ⟨"/r/a.pdf", 500, true, 5, "", "S-S"⟩])).2
      = some [PdfProcessor.Row.header,
              PdfProcessor.Row.entry ⟨"/r/b.pdf", 500, true, 5, "", "S-S"⟩]
    ∧ PdfProcessor.Row.entry ⟨"/r/a.pdf", 500, true, 5, "", "S-S"⟩
        ∉ [PdfProcessor.Row.header,
           PdfProcessor.Row.entry ⟨"/r/b.pdf", 500, true, 5, "", "S-S"⟩] := by
  constructor
  · decide
  · decide

/-- C6 as amended, which holds of pdf_processor_v6.py's `csv_writer_thread`
only: the v6 writer appends (the prior contents are a prefix of the
result), writes a header exactly when the store did not previously exist,
and over a store's whole lifetime of v6 runs the header appears exactly
once.  pdf_processor.py's `main` instead truncates and rewrites the header
on every run. -/
theorem c6_amended_header_once_v6 (store : Option (List PdfProcessorV6.Row))
    (recs : List PdfProcessorV6.Info)
    (runs : List (List PdfProcessorV6.Info)) :
    (∃ suffix, PdfProcessorV6.csv_writer_thread store
        (PdfProcessorV6.enqueueAll recs) = store.getD [] ++ suffix)
    ∧ PdfProcessorV6.headerCount
        (PdfProcessorV6.csv_writer_thread store
          (PdfProcessorV6.enqueueAll recs))
        = PdfProcessorV6.headerCount (store.getD [])
          + (if store.isSome then 0 else 1)
    ∧ PdfProcessorV6.headerCount
        ((PdfProcessorV6.lifetimeStores runs).getD [])
        = (if runs = [] then 0 else 1) := by
  refine ⟨?_, PdfProcessorV6.headerCount_csv_writer store recs, ?_⟩
  · refine ⟨(if store.isSome then [] else [PdfProcessorV6.Row.header])
        ++ recs.map PdfProcessorV6.Row.entry, ?_⟩
    rw [PdfProcessorV6.csv_writer_thread_enqueueAll]
    rw [List.append_assoc]
  · cases runs with
    | nil => rfl
    | cons r rest =>
      rw [if_neg (List.cons_ne_nil r rest)]
      unfold PdfProcessorV6.lifetimeStores
      simp only [List.foldl_cons]
      refine PdfProcessorV6.lifetime_foldl_some rest _ ?_
      rw [PdfProcessorV6.headerCount_csv_writer]
      rfl

/-! ### Resume-load failure behaviour (claim C7) -/

namespace PdfProcessorV6

theorem loadGo_append_error (nc : String → String)
    (pre : List (Except Unit (Option String)))
    (rest : List (Except Unit (Option String)))
    (acc : List String) (h : ∀ x ∈ pre, x.isOk = true) :
    loadGo nc acc (pre ++ Except.error () :: rest) = loadGo nc acc pre := by
  induction pre generalizing acc with
  | nil => rfl
  | cons x xs ih =>
    have hx : x.isOk = true := h x (List.mem_cons_self x xs)
    have hxs : ∀ y ∈ xs, y.isOk = true :=
      fun y hy => h y (List.mem_cons_of_mem x hy)
    cases x with
    | error e => simp [Except.isOk, Except.toBool] at hx
    | ok v =>
      cases v with
      | none => simpa [loadGo] using ih _ hxs
      | some p => simpa [loadGo] using ih _ hxs

end PdfProcessorV6

/-- C7 counterexample: when the resume CSV is malformed partway through
(the first data row reads fine, reading the second raises), the v6 loader
returns the partially accumulated set — not the empty set — and the
already-loaded path is filtered out of discovery rather than re-scanned. -/
theorem c7_counterexample :
    PdfProcessorV6.load_processed_csv (fun s => s)
        (some [Except.ok (some ("/r/a.pdf")), Except.error ()])
      = ["/r/a.pdf"]
    ∧ ["/r/a.pdf"] ≠ ([] : List String)
    ∧ PdfProcessorV6.pdf_gen (fun s => s) (["/r/a.pdf\n"]) (["/r/a.pdf"])
        = [] := by
  refine ⟨rfl, by decide, by decide⟩

/-- C7 as amended: the run never aborts on a resume-load failure — a
missing store yields the empty set, and a read failure partway through the
store yields exactly the set accumulated from the rows before the failure
(empty only when the failure precedes the first data row); paths in that
partial set are not re-scanned. -/
theorem c7_amended_partial_resume (nc : String → String)
    (pre rest : List (Except Unit (Option String)))
    (h : ∀ x ∈ pre, x.isOk = true) :
    PdfProcessorV6.load_processed_csv nc
        (some (pre ++ Except.error () :: rest))
      = PdfProcessorV6.load_processed_csv nc (some pre)
    ∧ PdfProcessorV6.load_processed_csv nc none = [] :=
  ⟨PdfProcessorV6.loadGo_append_error nc pre rest [] h, rfl⟩

/-- Witness for the amended C7 at a concrete malformed store. -/
theorem c7_amended_partial_resume_witness :
    PdfProcessorV6.load_processed_csv (fun s => s)
        (some ([Except.ok (some ("/r/b.pdf"))]
          ++ Except.error () :: [Except.ok (some ("/r/c.pdf"))]))
      = PdfProcessorV6.load_processed_csv (fun s => s)
          (some [Except.ok (some ("/r/b.pdf"))])
    ∧ PdfProcessorV6.load_processed_csv (fun s => s) none = [] :=
  c7_amended_partial_resume (fun s => s) _ _ (by decide)

/-! ### Missing root path (claim C8) -/

/-- C8 counterexample: with a missing root path, pdf_processor.py returns
early and the Python process exits with status 0 — not the claimed
non-zero status — while pdf_processor_v6.py performs no root check at all:
its `find` pipe is merely empty, the run completes with status 0, and a
previously non-existent output store is created with a header row (output
is produced). -/
theorem c8_counterexample :
    PdfProcessor.main false
        ⟨fun _ => Except.ok 500, fun _ => Except.ok ⟨5, false⟩⟩ ([]) none
      = (0, none)
    ∧ PdfProcessorV6.main (fun s => s)
        ⟨fun _ => Except.ok 500, fun _ => Except.ok ⟨5, false⟩⟩ ([]) none
      = (0, some [PdfProcessorV6.Row.header]) := by
  constructor
  · rfl
  · rfl

/-- C8 as amended: on a missing root, pdf_processor.py aborts before any
scanning with the store untouched but with exit status 0 (not non-zero);
pdf_processor_v6.py does not abort: with the resulting empty discovery
stream it completes with status 0, creating a fresh store with a header
row, or leaving an existing store's contents unchanged. -/
theorem c8_amended_missing_root (fs : FileSystem) (lines : List String)
    (prev : Option (List PdfProcessor.Row)) (nc : String → String)
    (rows : List PdfProcessorV6.Row) :
    PdfProcessor.main false fs lines prev = (0, prev)
    ∧ PdfProcessorV6.main nc fs ([]) none
        = (0, some [PdfProcessorV6.Row.header])
    ∧ PdfProcessorV6.main nc fs ([]) (some rows) = (0, some rows) := by
  refine ⟨rfl, rfl, ?_⟩
  unfold PdfProcessorV6.main PdfProcessorV6.process_pdfs
  simp [PdfProcessorV6.csv_writer_thread_enqueueAll, PdfProcessorV6.pdf_gen,
    PdfProcessorV6.find_pdf_files, PdfProcessorV6.findAux]

/-! ### Discovery-stream lemmas (claims C9 and C2) -/

namespace PdfProcessorV6

theorem findAux_mem (nc : String → String) (lines : List String)
    (seen : List String) (p : String) (hp : p ∈ findAux nc seen lines) :
    ¬nc p ∈ seen ∧ p ≠ "" ∧ ∃ l ∈ lines, p = pyStrip l := by
  induction lines generalizing seen with
  | nil => simp [findAux] at hp
  | cons line rest ih =>
    by_cases h1 : pyStrip line = ""
    · rw [findAux, if_pos h1] at hp
      obtain ⟨hs, hne, l, hl, hpl⟩ := ih seen hp
      exact ⟨hs, hne, l, List.mem_cons_of_mem _ hl, hpl⟩
    · by_cases h2 : memS (nc (pyStrip line)) seen = true
      · rw [findAux, if_neg h1, if_pos h2] at hp
        obtain ⟨hs, hne, l, hl, hpl⟩ := ih seen hp
        exact ⟨hs, hne, l, List.mem_cons_of_mem _ hl, hpl⟩
      · rw [findAux, if_neg h1, if_neg h2] at hp
        rcases List.mem_cons.mp hp with hp | hp
        · subst hp
          refine ⟨fun hm => h2 ((memS_iff _ _).mpr hm), h1,
            line, List.mem_cons_self _ _, rfl⟩
        · obtain ⟨hs, hne, l, hl, hpl⟩ := ih _ hp
          simp only [List.mem_cons, not_or] at hs
          exact ⟨hs.2, hne, l, List.mem_cons_of_mem _ hl, hpl⟩

theorem findAux_map_nodup (nc : String → String) (lines : List String)
    (seen : List String) : ((findAux nc seen lines).map nc).Nodup := by
  induction lines generalizing seen with
  | nil => simp [findAux]
  | cons line rest ih =>
    by_cases h1 : pyStrip line = ""
    · rw [findAux, if_pos h1]
      exact ih seen
    · by_cases h2 : memS (nc (pyStrip line)) seen = true
      · rw [findAux, if_neg h1, if_pos h2]
        exact ih seen
      · rw [findAux, if_neg h1, if_neg h2]
        simp only [List.map_cons, List.nodup_cons]
        refine ⟨?_, ih _⟩
        intro hmem
        obtain ⟨q, hq, hqe⟩ := List.mem_map.mp hmem
        obtain ⟨hs, -, -⟩ := findAux_mem nc rest _ q hq
        exact hs (hqe ▸ List.mem_cons_self _ _)

theorem findAux_all_kept (nc : String → String) (lines : List String)
    (seen : List String)
    (hstr : ∀ l ∈ lines, pyStrip l = l ∧ l ≠ "")
    (hnd : (lines.map nc).Nodup)
    (hseen : ∀ l ∈ lines, ¬memS (nc l) seen = true) :
    findAux nc seen lines = lines := by
  induction lines generalizing seen with
  | nil => rfl
  | cons line rest ih =>
    obtain ⟨hs, hne⟩ := hstr line (List.mem_cons_self _ _)
    rw [findAux]
    rw [hs, if_neg hne, if_neg (hseen line (List.mem_cons_self _ _))]
    simp only [List.map_cons, List.nodup_cons] at hnd
    congr 1
    refine ih _ (fun l hl => hstr l (List.mem_cons_of_mem _ hl)) hnd.2 ?_
    intro l hl hmem
    rcases List.mem_cons.mp ((memS_iff _ _).mp hmem) with h | h
    · exact hnd.1 (h ▸ List.mem_map_of_mem nc hl)
    · exact hseen l (List.mem_cons_of_mem _ hl) ((memS_iff _ _).mpr h)

end PdfProcessorV6

theorem dropWhile_eq_self_of_none (p : Char → Bool) (l : List Char)
    (h : ∀ c ∈ l, p c = false) : l.dropWhile p = l := by
  cases l with
  | nil => rfl
  | cons c rest =>
    rw [List.dropWhile_cons]
    rw [h c (List.mem_cons_self _ _)]
    simp

theorem pyStrip_of_no_space (s : String)
    (h : ∀ c ∈ s.data, isPySpace c = false) : pyStrip s = s := by
  unfold pyStrip
  rw [dropWhile_eq_self_of_none _ _ h]
  rw [dropWhile_eq_self_of_none _ _
    (fun c hc => h c (List.mem_reverse.mp hc))]
  rw [List.reverse_reverse]

/-- A family of pairwise distinct, slash-rooted, whitespace-free path
strings: `c9Line i` is `/` followed by `i + 1` copies of `a`. -/
def c9Line (i : Nat) : String :=
  String.mk ('/' :: List.replicate (i + 1) 'a')

theorem c9Line_strip (i : Nat) : pyStrip (c9Line i) = c9Line i := by
  refine pyStrip_of_no_space _ ?_
  intro c hc
  unfold c9Line at hc
  simp only [String.data] at hc
  rcases List.mem_cons.mp hc with h | h
  · subst h; rfl
  · rw [List.eq_of_mem_replicate h]; rfl

theorem c9Line_ne_empty (i : Nat) : c9Line i ≠ "" := by
  intro h
  have := congrArg String.data h
  simp [c9Line] at this

theorem c9Line_injective : Function.Injective c9Line := by
  intro i j h
  have hd := congrArg String.data h
  simp only [c9Line] at hd
  have := congrArg List.length hd
  simp [List.length_replicate] at this
  exact this

/-- C9 counterexample: the `futures` dict comprehension of
pdf_processor_v6.py line 151 materializes the complete discovered path set
before any result is collected.  On a concrete three-file tree, the
structure holds all three discovered paths simultaneously — the full set,
not a stream. -/
theorem c9_counterexample :
    PdfProcessorV6.futuresDict (fun s => s)
        (["/r/a.pdf\n", "/r/b.pdf\n", "/r/c.pdf\n"]) ([])
      = ["/r/a.pdf", "/r/b.pdf", "/r/c.pdf"]
    ∧ (PdfProcessorV6.futuresDict (fun s => s)
        (["/r/a.pdf\n", "/r/b.pdf\n", "/r/c.pdf\n"]) ([])).length
      = (PdfProcessorV6.find_pdf_files (fun s => s)
          (["/r/a.pdf\n", "/r/b.pdf\n", "/r/c.pdf\n"])).length := by
  constructor
  · decide
  · decide

/-- C9 as amended: discovery itself is a deduplicating stream, but
`process_pdfs` drains it in full into the `futures` mapping before
collecting any result, so the memory held by `futures` grows linearly with
the number of discovered files: for every `n` there is a scanned tree of
`n` files for which the mapping holds all `n` paths at once. -/
theorem c9_amended_futures_materialized (n : Nat) :
    (PdfProcessorV6.futuresDict (fun s => s)
        ((List.range n).map c9Line) ([])).length = n := by
  have hkeep : PdfProcessorV6.findAux (fun s => s) []
      ((List.range n).map c9Line) = (List.range n).map c9Line := by
    refine PdfProcessorV6.findAux_all_kept _ _ _ ?_ ?_ ?_
    · intro l hl
      obtain ⟨i, -, rfl⟩ := List.mem_map.mp hl
      exact ⟨c9Line_strip i, c9Line_ne_empty i⟩
    · have : ((List.range n).map c9Line).map (fun s => s)
          = (List.range n).map c9Line := List.map_id' _
      rw [this]
      exact (List.nodup_range n).map c9Line_injective
    · intro l hl hmem
      rw [memS_iff] at hmem
      simp at hmem
  unfold PdfProcessorV6.futuresDict PdfProcessorV6.pdf_gen
    PdfProcessorV6.find_pdf_files
  rw [hkeep]
  rw [List.filter_eq_self.mpr (fun a _ => by simp [memS])]
  simp

/-! ### Resume/dedup lemmas (claim C2) -/

namespace PdfProcessorV6

/-- The `file_path` values of the record rows of a store, in order. -/
def recPaths : List Row → List String
  | [] => []
  | Row.header :: rest => recPaths rest
  | Row.entry r :: rest => r.file_path :: recPaths rest

theorem recPaths_append (a b : List Row) :
    recPaths (a ++ b) = recPaths a ++ recPaths b := by
  induction a with
  | nil => rfl
  | cons row rest ih =>
    cases row with
    | header => simpa [recPaths] using ih
    | entry r => simpa [recPaths] using ih

theorem recPaths_entries (recs : List Info) :
    recPaths (recs.map Row.entry) = recs.map Info.file_path := by
  induction recs with
  | nil => rfl
  | cons r rest ih => simpa [recPaths] using ih

theorem mem_recPaths (t : List Row) (x : String) :
    x ∈ recPaths t ↔ ∃ r, Row.entry r ∈ t ∧ x = r.file_path := by
  induction t with
  | nil => simp [recPaths]
  | cons row rest ih =>
    cases row with
    | header =>
      simp only [recPaths, ih]
      constructor
      · rintro ⟨r, hr, hx⟩
        exact ⟨r, List.mem_cons_of_mem _ hr, hx⟩
      · rintro ⟨r, hr, hx⟩
        rcases List.mem_cons.mp hr with h | h
        · exact absurd h (by simp)
        · exact ⟨r, h, hx⟩
    | entry r0 =>
      simp only [recPaths, List.mem_cons, ih]
      constructor
      · rintro (hx | ⟨r, hr, hx⟩)
        · exact ⟨r0, Or.inl rfl, hx⟩
        · exact ⟨r, Or.inr hr, hx⟩
      · rintro ⟨r, hr | hr, hx⟩
        · cases hr
          exact Or.inl hx
        · exact Or.inr ⟨r, hr, hx⟩

theorem loadGo_mem_iff (nc : String → String) (acc : List String)
    (rows : List (Except Unit (Option String))) (x : String) :
    x ∈ loadGo nc acc rows ↔ x ∈ acc ∨ x ∈ loadGo nc [] rows := by
  induction rows generalizing acc with
  | nil => simp [loadGo]
  | cons row rest ih =>
    cases row with
    | error e => simp [loadGo]
    | ok v =>
      cases v with
      | none => simp only [loadGo]; exact ih acc
      | some p =>
        by_cases hp : p = ""
        · simp only [loadGo, if_pos hp]
          exact ih acc
        · simp only [loadGo, if_neg hp]
          rw [ih (nc p :: acc), ih [nc p]]
          simp only [List.mem_cons, List.not_mem_nil, or_false]
          tauto

theorem mem_loadGo_of_mem_acc (nc : String → String) (acc : List String)
    (rows : List (Except Unit (Option String))) (x : String) (h : x ∈ acc) :
    x ∈ loadGo nc acc rows :=
  (loadGo_mem_iff nc acc rows x).mpr (Or.inl h)

theorem loadGo_append_ok (nc : String → String)
    (a b : List (Except Unit (Option String))) (acc : List String)
    (h : ∀ x ∈ a, x.isOk = true) :
    loadGo nc acc (a ++ b) = loadGo nc (loadGo nc acc a) b := by
  induction a generalizing acc with
  | nil => rfl
  | cons x xs ih =>
    have hx : x.isOk = true := h x (List.mem_cons_self x xs)
    have hxs : ∀ y ∈ xs, y.isOk = true :=
      fun y hy => h y (List.mem_cons_of_mem x hy)
    cases x with
    | error e => simp [Except.isOk, Except.toBool] at hx
    | ok v =>
      cases v with
      | none => simpa [loadGo] using ih _ hxs
      | some p => simpa [loadGo] using ih _ hxs

theorem csvReadRow_isOk (row : Row) : (csvReadRow row).isOk = true := by
  cases row with
  | header => rfl
  | entry r => rfl

theorem map_csvReadRow_isOk (t : List Row) :
    ∀ x ∈ t.map csvReadRow, x.isOk = true := by
  intro x hx
  obtain ⟨row, -, rfl⟩ := List.mem_map.mp hx
  exact csvReadRow_isOk row

theorem mem_loadGo_of_elem (nc : String → String)
    (rows : List (Except Unit (Option String))) (p : String) (hp : p ≠ "") :
    ∀ acc, Except.ok (some p) ∈ rows → (∀ x ∈ rows, x.isOk = true) →
      nc p ∈ loadGo nc acc rows := by
  induction rows with
  | nil =>
    intro acc hm _
    simp at hm
  | cons x rest ih =>
    intro acc hm hok
    have hokr : ∀ y ∈ rest, y.isOk = true :=
      fun y hy => hok y (List.mem_cons_of_mem x hy)
    rcases List.mem_cons.mp hm with hmx | hmr
    · subst hmx
      simp only [loadGo, if_neg hp]
      exact mem_loadGo_of_mem_acc nc _ rest _ (List.mem_cons_self _ _)
    · cases x with
      | error e =>
        have := hok _ (List.mem_cons_self _ rest)
        simp [Except.isOk, Except.toBool] at this
      | ok v =>
        cases v with
        | none =>
          simp only [loadGo]
          exact ih _ hmr hokr
        | some q =>
          simp only [loadGo]
          exact ih _ hmr hokr

/-- Every record row of the resumed store contributes its normalized path
to the loaded resume set. -/
theorem mem_load_of_entry (nc : String → String) (acc : List String)
    (t : List Row) (r : Info) (ht : Row.entry r ∈ t)
    (hne : r.file_path ≠ "") :
    nc r.file_path ∈ loadGo nc acc (t.map csvReadRow) := by
  refine mem_loadGo_of_elem nc _ _ hne acc ?_ (map_csvReadRow_isOk t)
  have := List.mem_map_of_mem csvReadRow ht
  simpa [csvReadRow] using this

/-- The record rows appended by a run contribute their normalized paths to
the resume set loaded by the next run. -/
theorem mem_load_of_rec (nc : String → String) (acc : List String)
    (recs : List Info) (p : String) (hne : p ≠ "")
    (hmem : ∃ r ∈ recs, r.file_path = p) :
    nc p ∈ loadGo nc acc ((recs.map Row.entry).map csvReadRow) := by
  obtain ⟨r, hr, hfp⟩ := hmem
  subst hfp
  exact mem_load_of_entry nc acc (recs.map Row.entry) r
    (List.mem_map_of_mem Row.entry hr) hne

theorem process_single_pdf_file_path (fs : FileSystem) (p : String) :
    (process_single_pdf fs p).file_path = posixPathStr p := by
  unfold process_single_pdf
  cases fs.stat p with
  | error e => rfl
  | ok s =>
    cases fs.fitzOpen p with
    | error e => rfl
    | ok doc => rfl

theorem map_filepath_process (fs : FileSystem) (G : List String)
    (h : ∀ p ∈ G, posixPathStr p = p) :
    (G.map (process_single_pdf fs)).map Info.file_path = G := by
  rw [List.map_map]
  have hcongr : ∀ p ∈ G, (Info.file_path ∘ process_single_pdf fs) p = p :=
    fun p hp => (process_single_pdf_file_path fs p).trans (h p hp)
  rw [List.map_congr_left hcongr]
  exact List.map_id' G

theorem process_pdfs_eq (nc : String → String) (fs : FileSystem)
    (lines : List String) (store : Option (List Row)) :
    process_pdfs nc fs lines true store
      = some (store.getD [] ++ (if store.isSome then [] else [Row.header])
          ++ ((pdf_gen nc lines
              (load_processed_csv nc (store.map csvRead))).map
            (process_single_pdf fs)).map Row.entry) := by
  simp only [process_pdfs, if_true, csv_writer_thread_enqueueAll]

/-- Members of the filtered generator: normal-form, non-empty, and not in
the resume set. -/
theorem pdf_gen_facts (nc : String → String) (lines : List String)
    (processed : List String)
    (hnf : ∀ l ∈ lines, posixPathStr (pyStrip l) = pyStrip l) :
    ∀ p ∈ pdf_gen nc lines processed,
      posixPathStr p = p ∧ p ≠ "" ∧ nc p ∉ processed := by
  intro p hp
  obtain ⟨hfind, hpred⟩ := List.mem_filter.mp hp
  obtain ⟨-, hne, l, hl, rfl⟩ := findAux_mem nc lines [] _ hfind
  refine ⟨hnf l hl, hne, ?_⟩
  intro hmem
  rw [(memS_iff _ _).mpr hmem] at hpred
  simp at hpred

/-- A run over a discovery stream all of whose normalized paths are already
in the resume set it loads leaves the store unchanged. -/
theorem process_pdfs_fixed (nc : String → String) (fs : FileSystem)
    (lines : List String) (S : List Row)
    (h : ∀ p ∈ find_pdf_files nc lines,
      nc p ∈ load_processed_csv nc (some (csvRead S))) :
    process_pdfs nc fs lines true (some S) = some S := by
  rw [process_pdfs_eq]
  have hG : pdf_gen nc lines (load_processed_csv nc (some (csvRead S)))
      = [] := by
    unfold pdf_gen
    rw [List.filter_eq_nil_iff]
    intro p hp
    rw [(memS_iff _ _).mpr (h p hp)]
    simp
  simp [hG]

end PdfProcessorV6

namespace PdfProcessorV6

theorem none_store_base :
    (none : Option (List Row)).getD []
        ++ (if (none : Option (List Row)).isSome = true then []
            else [Row.header]) = [Row.header] := rfl

theorem some_store_base (rows : List Row) :
    (some rows).getD []
        ++ (if (some rows).isSome = true then ([] : List Row)
            else [Row.header]) = rows := by
  simp

theorem load_cons_append (nc : String → String) (t X : List Row) :
    load_processed_csv nc (some (csvRead ((Row.header :: t) ++ X)))
      = loadGo nc (loadGo nc [] (t.map csvReadRow)) (X.map csvReadRow) := by
  show loadGo nc [] ((t ++ X).map csvReadRow) = _
  rw [List.map_append]
  exact loadGo_append_ok nc _ _ [] (map_csvReadRow_isOk t)

/-- C2 as amended: per distinct normalized path, at most one record is
written, provided the discovery lines are `str(Path(p))`-normal.  The
first conjunct is the in-run guarantee, which needs no such proviso: the
Discovery generator's `seen` set makes the normalized images of the
emitted paths pairwise distinct, so a path is submitted at most once per
run even if the traversal reports it twice.  The second conjunct: after a
run over any well-formed store (absent, or header followed by record rows
with non-empty normal-form paths and pairwise-distinct normalized paths),
the record rows of the resulting store still have pairwise-distinct
normalized paths.  The third conjunct is idempotence: re-running over the
unchanged discovery stream leaves the store exactly as it was.  The
normal-form hypothesis `hnf` holds when the root argument is an absolute
or otherwise `str(Path(root))`-fixed path, so that `find` emits lines that
are already Path-normal; it fails for a relative root such as `.`, where
`find` emits `./x.pdf` but the store holds `x.pdf` — there the resume
filter misses and the invariant is genuinely violated (see the
counterexample). -/
theorem c2_one_record_per_normalized_path (nc : String → String)
    (fs : FileSystem) (lines : List String) (store : Option (List Row))
    (hnf : ∀ l ∈ lines, posixPathStr (pyStrip l) = pyStrip l)
    (hstore : store = none
      ∨ ∃ t, store = some (Row.header :: t)
        ∧ (∀ row ∈ t, ∃ r, row = Row.entry r
            ∧ r.file_path ≠ "" ∧ posixPathStr r.file_path = r.file_path)
        ∧ ((recPaths t).map nc).Nodup) :
    ((find_pdf_files nc lines).map nc).Nodup
    ∧ ((recPaths
          ((process_pdfs nc fs lines true store).getD [])).map nc).Nodup
    ∧ process_pdfs nc fs lines true (process_pdfs nc fs lines true store)
      = process_pdfs nc fs lines true store := by
  have hfind : ((find_pdf_files nc lines).map nc).Nodup :=
    findAux_map_nodup nc lines []
  refine ⟨hfind, ?_⟩
  rcases hstore with rfl | ⟨t, rfl, ht, hndt⟩
  · -- store did not exist
    have hGnf : ∀ p ∈ pdf_gen nc lines
        (load_processed_csv nc ((none : Option (List Row)).map csvRead)),
        posixPathStr p = p :=
      fun p hp => (pdf_gen_facts nc lines _ hnf p hp).1
    have hGsub : ((pdf_gen nc lines
          (load_processed_csv nc ((none : Option (List Row)).map csvRead))).map
        nc).Sublist ((find_pdf_files nc lines).map nc) :=
      (List.filter_sublist _).map nc
    constructor
    · rw [process_pdfs_eq nc fs lines none]
      simp only [Option.getD_some]
      rw [none_store_base, recPaths_append]
      rw [show recPaths [Row.header] = [] from rfl, List.nil_append]
      rw [recPaths_entries, map_filepath_process fs _ hGnf]
      exact hfind.sublist hGsub
    · rw [process_pdfs_eq nc fs lines none, none_store_base]
      apply process_pdfs_fixed
      intro p hp
      obtain ⟨-, hpne, l, hl, hpl⟩ := findAux_mem nc lines [] p hp
      have hpnf : posixPathStr p = p := by rw [hpl]; exact hnf l hl
      have hpG : p ∈ pdf_gen nc lines
          (load_processed_csv nc ((none : Option (List Row)).map csvRead)) :=
        List.mem_filter.mpr ⟨hp, rfl⟩
      exact mem_load_of_rec nc []
        ((pdf_gen nc lines
          (load_processed_csv nc ((none : Option (List Row)).map csvRead))).map
            (process_single_pdf fs)) p hpne
        ⟨process_single_pdf fs p, List.mem_map_of_mem _ hpG,
          by rw [process_single_pdf_file_path, hpnf]⟩
  · -- store existed: header followed by record rows
    have hGnf : ∀ p ∈ pdf_gen nc lines
        (load_processed_csv nc ((some (Row.header :: t)).map csvRead)),
        posixPathStr p = p :=
      fun p hp => (pdf_gen_facts nc lines _ hnf p hp).1
    have hGsub : ((pdf_gen nc lines
          (load_processed_csv nc ((some (Row.header :: t)).map csvRead))).map
        nc).Sublist ((find_pdf_files nc lines).map nc) :=
      (List.filter_sublist _).map nc
    have hP1 : load_processed_csv nc ((some (Row.header :: t)).map csvRead)
        = loadGo nc [] (t.map csvReadRow) := rfl
    constructor
    · rw [process_pdfs_eq nc fs lines (some (Row.header :: t)),
        some_store_base]
      simp only [Option.getD_some]
      rw [recPaths_append]
      rw [show recPaths (Row.header :: t) = recPaths t from rfl]
      rw [recPaths_entries, map_filepath_process fs _ hGnf]
      rw [List.map_append, List.nodup_append]
      refine ⟨hndt, hfind.sublist hGsub, ?_⟩
      intro a ha hb
      obtain ⟨x, hx, rfl⟩ := List.mem_map.mp ha
      obtain ⟨r, hrt, rfl⟩ := (mem_recPaths t x).mp hx
      obtain ⟨r2, heq, hne2, -⟩ := ht _ hrt
      cases heq
      obtain ⟨p, hpG, hpe⟩ := List.mem_map.mp hb
      have hnot := (pdf_gen_facts nc lines _ hnf p hpG).2.2
      rw [hpe, hP1] at hnot
      exact hnot (mem_load_of_entry nc [] t r hrt hne2)
    · rw [process_pdfs_eq nc fs lines (some (Row.header :: t)),
        some_store_base]
      apply process_pdfs_fixed
      intro p hp
      obtain ⟨-, hpne, l, hl, hpl⟩ := findAux_mem nc lines [] p hp
      have hpnf : posixPathStr p = p := by rw [hpl]; exact hnf l hl
      rw [load_cons_append]
      by_cases hc : nc p ∈ loadGo nc [] (t.map csvReadRow)
      · exact mem_loadGo_of_mem_acc nc _ _ _ hc
      · have hms : memS (nc p)
            (load_processed_csv nc ((some (Row.header :: t)).map csvRead))
            = false := by
          rw [hP1]
          cases h : memS (nc p) (loadGo nc [] (t.map csvReadRow)) with
          | false => rfl
          | true => exact absurd ((memS_iff _ _).mp h) hc
        have hpG : p ∈ pdf_gen nc lines
            (load_processed_csv nc ((some (Row.header :: t)).map csvRead)) :=
          List.mem_filter.mpr ⟨hp, by rw [hms]; rfl⟩
        exact mem_load_of_rec nc (loadGo nc [] (t.map csvReadRow))
          ((pdf_gen nc lines
            (load_processed_csv nc
              ((some (Row.header :: t)).map csvRead))).map
                (process_single_pdf fs)) p hpne
          ⟨process_single_pdf fs p, List.mem_map_of_mem _ hpG,
            by rw [process_single_pdf_file_path, hpnf]⟩

end PdfProcessorV6

/-- Witness for C2 on a concrete two-file tree and an absent store. -/
theorem c2_one_record_per_normalized_path_witness :
    ((PdfProcessorV6.find_pdf_files (fun s => s)
        (["/r/a.pdf\n", "/r/b.pdf\n"])).map (fun s => s)).Nodup
    ∧ ((PdfProcessorV6.recPaths
          ((PdfProcessorV6.process_pdfs (fun s => s)
              ⟨fun _ => Except.ok 200000, fun _ => Except.ok ⟨3, false⟩⟩
              (["/r/a.pdf\n", "/r/b.pdf\n"]) true none).getD [])).map
        (fun s => s)).Nodup
    ∧ PdfProcessorV6.process_pdfs (fun s => s)
        ⟨fun _ => Except.ok 200000, fun _ => Except.ok ⟨3, false⟩⟩
        (["/r/a.pdf\n", "/r/b.pdf\n"]) true
        (PdfProcessorV6.process_pdfs (fun s => s)
          ⟨fun _ => Except.ok 200000, fun _ => Except.ok ⟨3, false⟩⟩
          (["/r/a.pdf\n", "/r/b.pdf\n"]) true none)
      = PdfProcessorV6.process_pdfs (fun s => s)
          ⟨fun _ => Except.ok 200000, fun _ => Except.ok ⟨3, false⟩⟩
          (["/r/a.pdf\n", "/r/b.pdf\n"]) true none :=
  PdfProcessorV6.c2_one_record_per_normalized_path (fun s => s)
    ⟨fun _ => Except.ok 200000, fun _ => Except.ok ⟨3, false⟩⟩
    (["/r/a.pdf\n", "/r/b.pdf\n"]) none (by decide) (Or.inl rfl)

/-- C2 counterexample: with the ordinary relative invocation root `.`,
`find .` emits lines such as `./a.pdf`, which are not `str(Path(p))`-normal.
The worker stores `str(Path("./a.pdf")) = "a.pdf"` in the record, but the
resume filter compares `os.path.normcase` of the raw discovery line
`./a.pdf` (identity here) against the loaded set containing `a.pdf`,
misses, and re-classifies the file: after a resumed second run over the
unchanged discovery stream the store holds two records for the same
normalized path, so the claimed exactly-one-record-per-path invariant and
resume idempotence fail on the code as written. -/
theorem c2_counterexample :
    PdfProcessorV6.recPaths
        ((PdfProcessorV6.process_pdfs (fun s => s)
            ⟨fun _ => Except.ok 200000, fun _ => Except.ok ⟨3, false⟩⟩
            (["./a.pdf\n"]) true
            (PdfProcessorV6.process_pdfs (fun s => s)
              ⟨fun _ => Except.ok 200000, fun _ => Except.ok ⟨3, false⟩⟩
              (["./a.pdf\n"]) true none)).getD [])
      = ["a.pdf", "a.pdf"]
    ∧ ¬((PdfProcessorV6.recPaths
          ((PdfProcessorV6.process_pdfs (fun s => s)
              ⟨fun _ => Except.ok 200000, fun _ => Except.ok ⟨3, false⟩⟩
              (["./a.pdf\n"]) true
              (PdfProcessorV6.process_pdfs (fun s => s)
                ⟨fun _ => Except.ok 200000, fun _ => Except.ok ⟨3, false⟩⟩
                (["./a.pdf\n"]) true none)).getD [])).map
        (fun s => s)).Nodup := by
  constructor
  · decide
  · decide
